import Mathlib

/-!
Shallow embedding of the sudoku engine in `sudoku_module.c` (board model,
validator, randomized backtracking solver, puzzle generator) and proofs of
the specification claims about it.

The C `rand()` stream is modelled as an explicit sequence of outputs
(`Rng`), and the process-wide module state (`g_seeded`, the current stream,
and the libc stream family selected by `srand`) as `SudokuState`, threaded
through each operation.  In-place mutation of boards is modelled by
returning the final board contents.
-/

/-- A sudoku board: 9x9 grid of C ints, 0 = empty; indexed row, column. -/
def Board : Type := Fin 9 → Fin 9 → Int

instance : Inhabited Board := ⟨fun _ _ => 0⟩

/-- Writing value `v` into cell `(r, c)` of a board (one C array store). -/
def update (b : Board) (r c : Fin 9) (v : Int) : Board :=
  fun r' c' => if r' = r ∧ c' = c then v else b r' c'

/-- A C int already checked to lie in [0, 9), as a board index. -/
def toFin9 (i : Int) : Fin 9 := ⟨i.toNat % 9, Nat.mod_lt _ (by norm_num)⟩

/-- `is_in_range_1_9` from sudoku_module.c. -/
def is_in_range_1_9 (v : Int) : Bool := decide (1 ≤ v ∧ v ≤ 9)

/-- `sudoku_can_place`: range-check row, col, value, then scan row `row`,
column `col`, and the 3x3 box containing (row, col) for `value`.  The C box
loop runs over r in [br, br+3) and c in [bc, bc+3) with br = (row/3)*3,
bc = (col/3)*3, i.e. exactly the cells (i, j) with i/3 = row/3 and
j/3 = col/3. -/
def sudoku_can_place (b : Board) (row col value : Int) : Bool :=
  if row < 0 ∨ 9 ≤ row ∨ col < 0 ∨ 9 ≤ col then false
  else if !(is_in_range_1_9 value) then false
  else
    let r := toFin9 row
    let c := toFin9 col
    ((List.finRange 9).all fun i => !(b r i == value) && !(b i c == value)) &&
    ((List.finRange 9).all fun i => (List.finRange 9).all fun j =>
      !(decide (i.val / 3 = r.val / 3) && decide (j.val / 3 = c.val / 3)) || !(b i j == value))

/-- `sudoku_is_valid_partial`: every non-zero cell, temporarily cleared, must
be placeable back at its own position. -/
def sudoku_is_valid_partial (b : Board) : Bool :=
  (List.finRange 9).all fun r => (List.finRange 9).all fun c =>
    if b r c == 0 then true
    else is_in_range_1_9 (b r c) &&
      sudoku_can_place (update b r c 0) (r.val : Int) (c.val : Int) (b r c)

/-- The 81 cells in the row-major order of the C loops. -/
def allCells : List (Fin 9 × Fin 9) :=
  (List.finRange 9).flatMap fun r => (List.finRange 9).map fun c => (r, c)

/-- `find_empty_cell`: first empty cell in row-major order, if any. -/
def find_empty_cell (b : Board) : Option (Fin 9 × Fin 9) :=
  allCells.find? fun p => b p.1 p.2 == 0

/-- `count_holes`: number of empty cells. -/
def count_holes (b : Board) : Nat :=
  allCells.countP fun p => b p.1 p.2 == 0

/-- The C pseudorandom stream: the sequence of `rand()` outputs together with
the position of the next output to be consumed. -/
structure Rng where
  seq : Nat → Nat
  pos : Nat

/-- `rand_int`: `rand() % max_exclusive`, consuming one stream output. -/
def rand_int (max_exclusive : Nat) (g : Rng) : Nat × Rng :=
  (g.seq g.pos % max_exclusive, ⟨g.seq, g.pos + 1⟩)

/-- One `swap a[i] a[j]` step of `shuffle_ints`. -/
def swap (a : List Int) (i j : Nat) : List Int :=
  (a.set i (a.getD j 0)).set j (a.getD i 0)

/-- The Fisher-Yates loop of `shuffle_ints`: the iteration with C loop index
`i + 1` draws j < i + 2 and swaps positions i + 1 and j, then continues at
index i; index 0 stops. -/
def shuffle_iter : Nat → List Int × Rng → List Int × Rng
  | 0, ag => ag
  | i + 1, (a, g) =>
    let p := rand_int (i + 2) g
    shuffle_iter i (swap a (i + 1) p.1, p.2)

/-- `shuffle_ints` on an n-element array. -/
def shuffle_ints (a : List Int) (n : Nat) (g : Rng) : List Int × Rng :=
  shuffle_iter (n - 1) (a, g)

/-- The candidate array `nums = {1,...,9}` built by `solve_backtrack`. -/
def nums1_9 : List Int := [1, 2, 3, 4, 5, 6, 7, 8, 9]

/-- The candidate loop of `solve_backtrack` at cell (row, col): try the
candidates in order; place any the validator accepts, run the recursive
solver (passed as `solver`), and on its failure reset the cell to 0 and
continue with the next candidate. -/
def tryCands (solver : Board → Rng → Option (Bool × Board × Rng)) (row col : Fin 9) :
    List Int → Board → Rng → Option (Bool × Board × Rng)
  | [], b, g => some (false, b, g)
  | v :: rest, b, g =>
    if sudoku_can_place b (row.val : Int) (col.val : Int) v then
      match solver (update b row col v) g with
      | none => none
      | some (true, b2, g2) => some (true, b2, g2)
      | some (false, b2, g2) => tryCands solver row col rest (update b2 row col 0) g2
    else tryCands solver row col rest b g

/-- `solve_backtrack`, with an explicit recursion-depth bound `fuel`: each
recursive call of the C function fills one empty cell first, so any fuel
above the number of empty cells is enough; `none` marks fuel running out and
is proved unreachable for fuel > count_holes (`solveBT_isSome`).  On success:
(true, solved board, stream); on exhaustion: (false, board restored to the
input, stream). -/
def solveBT : Nat → Board → Rng → Option (Bool × Board × Rng) :=
  Nat.rec (motive := fun _ => Board → Rng → Option (Bool × Board × Rng))
    (fun _ _ => none)
    (fun _ ih b g =>
      match find_empty_cell b with
      | none => some (true, b, g)
      | some rc =>
        let p := shuffle_ints nums1_9 9 g
        tryCands ih rc.1 rc.2 p.1 b p.2)

theorem solveBT_zero (b : Board) (g : Rng) : solveBT 0 b g = none := rfl

theorem solveBT_succ (fuel : Nat) (b : Board) (g : Rng) :
    solveBT (fuel + 1) b g =
      match find_empty_cell b with
      | none => some (true, b, g)
      | some rc =>
        let p := shuffle_ints nums1_9 9 g
        tryCands (solveBT fuel) rc.1 rc.2 p.1 b p.2 := rfl

/-- `solve_backtrack` as called by the C code: 82 units of fuel exceed the at
most 81 empty cells, so the bound never fires. -/
def solve_backtrack (b : Board) (g : Rng) : Bool × Board × Rng :=
  (solveBT 82 b g).getD (false, b, g)

/-- `SudokuResult` from sudoku_module.h. -/
inductive SudokuResult where
  | SUDOKU_OK
  | SUDOKU_ERR_INVALID_ARG
  | SUDOKU_ERR_UNSOLVABLE
  | SUDOKU_ERR_IO
deriving DecidableEq

/-- The process-wide state of the C module: the libc stream family
`srand_seq` (seed -> sequence of rand() outputs), the `g_seeded` flag, and
the current stream. -/
structure SudokuState where
  srand_seq : Nat → Nat → Nat
  g_seeded : Bool
  rng : Rng

/-- `sudoku_seed`: srand(seed) and set g_seeded. -/
def sudoku_seed (seed : Nat) (s : SudokuState) : SudokuState :=
  { s with g_seeded := true, rng := ⟨s.srand_seq seed, 0⟩ }

/-- `seed_if_needed`. -/
def seed_if_needed (s : SudokuState) : SudokuState :=
  if s.g_seeded then s else sudoku_seed 0 s

open SudokuResult

/-- `sudoku_solve`: null check, seed, validity precondition, backtracking
search; the board is in-out, returned alongside the result. -/
def sudoku_solve (in_out_board : Option Board) (s : SudokuState) :
    SudokuResult × Option Board × SudokuState :=
  match in_out_board with
  | none => (SUDOKU_ERR_INVALID_ARG, none, s)
  | some b =>
    let s1 := seed_if_needed s
    if sudoku_is_valid_partial b then
      let r := solve_backtrack b s1.rng
      if r.1 then (SUDOKU_OK, some r.2.1, { s1 with rng := r.2.2 })
      else (SUDOKU_ERR_UNSOLVABLE, some r.2.1, { s1 with rng := r.2.2 })
    else (SUDOKU_ERR_UNSOLVABLE, some b, s1)

/-- `sudoku_clear`: the all-zero board contents. -/
def sudoku_clear : Board := fun _ _ => 0

/-- `sudoku_generate_solution`: null check, seed, clear the out board, then
complete it from empty with the backtracking search. -/
def sudoku_generate_solution (out_solution : Option Board) (s : SudokuState) :
    SudokuResult × Option Board × SudokuState :=
  match out_solution with
  | none => (SUDOKU_ERR_INVALID_ARG, none, s)
  | some _ =>
    let s1 := seed_if_needed s
    let r := solve_backtrack sudoku_clear s1.rng
    if r.1 then (SUDOKU_OK, some r.2.1, { s1 with rng := r.2.2 })
    else (SUDOKU_ERR_UNSOLVABLE, some r.2.1, { s1 with rng := r.2.2 })

/-- `sudoku_holes_for_difficulty`, on the underlying C int of the enum
(EASY = 0, MEDIUM = 1, HARD = 2). -/
def sudoku_holes_for_difficulty (difficulty : Int) : Int :=
  if difficulty = 0 then 35
  else if difficulty = 1 then 45
  else if difficulty = 2 then 55
  else 45

/-- A value from `rand_int 9` as a board coordinate. -/
def finOfRand (x : Nat) : Fin 9 := ⟨x % 9, Nat.mod_lt _ (by norm_num)⟩

/-- The row picked by one removal attempt: `rr = rand_int(9)`. -/
def carve_rr (s : SudokuState) : Fin 9 := finOfRand (rand_int 9 s.rng).1

/-- The column picked by one removal attempt: `cc = rand_int(9)`, drawn after
the row. -/
def carve_cc (s : SudokuState) : Fin 9 := finOfRand (rand_int 9 (rand_int 9 s.rng).2).1

/-- The process state after the two `rand_int(9)` draws of one attempt. -/
def carve_s2 (s : SudokuState) : SudokuState :=
  { s with rng := (rand_int 9 (rand_int 9 s.rng).2).2 }

/-- The removal loop of `sudoku_generate_puzzle`, with `rem` the remaining
attempt budget (max_tries - tries).  Returns the carved board, the final
process state, and the number of loop iterations executed.  A kept removal
continues from the reduced board; a veto (the copy does not solve, so the
saved value is written back) or an already-empty pick continues from the
unchanged board; all three spend one attempt. -/
def carve_loop (target : Int) : Nat → Board → SudokuState → Board × SudokuState × Nat
  | 0, b, s => (b, s, 0)
  | rem + 1, b, s =>
    if (count_holes b : Int) < target then
      if b (carve_rr s) (carve_cc s) == 0 then
        let res := carve_loop target rem b (carve_s2 s)
        (res.1, res.2.1, res.2.2 + 1)
      else
        let b1 := update b (carve_rr s) (carve_cc s) 0
        match sudoku_solve (some b1) (carve_s2 s) with
        | (SUDOKU_OK, _, s3) =>
          let res := carve_loop target rem b1 s3
          (res.1, res.2.1, res.2.2 + 1)
        | (_, _, s3) =>
          let res := carve_loop target rem b s3
          (res.1, res.2.1, res.2.2 + 1)
    else (b, s, 0)

/-- The body of `sudoku_generate_puzzle` after its null checks: generate a
full solution into the out board, copy it into the puzzle, carve with a
2000-attempt budget, always OK past solution generation.  On a solution
failure the puzzle out-param (`out_puzzle`) is left untouched. -/
def generate_puzzle_core (out_puzzle : Option Board) (qb : Board) (difficulty : Int)
    (s : SudokuState) : SudokuResult × Option Board × Option Board × SudokuState :=
  match sudoku_generate_solution (some qb) (seed_if_needed s) with
  | (SUDOKU_OK, some sol, s2) =>
    (SUDOKU_OK,
     some (carve_loop (sudoku_holes_for_difficulty difficulty) 2000 sol s2).1, some sol,
     (carve_loop (sudoku_holes_for_difficulty difficulty) 2000 sol s2).2.1)
  | (r, solOut, s2) => (r, out_puzzle, solOut, s2)

/-- `sudoku_generate_puzzle`: null checks, then the core above. -/
def sudoku_generate_puzzle (out_puzzle out_solution : Option Board) (difficulty : Int)
    (s : SudokuState) : SudokuResult × Option Board × Option Board × SudokuState :=
  match out_puzzle, out_solution with
  | some _, some qb => generate_puzzle_core out_puzzle qb difficulty s
  | _, _ => (SUDOKU_ERR_INVALID_ARG, out_puzzle, out_solution, s)

/-- Every cell of b holds a digit 1..9. -/
def FilledBoard (b : Board) : Prop := ∀ r c : Fin 9, 1 ≤ b r c ∧ b r c ≤ 9

/-- b agrees with b0 on every cell that is non-zero in b0 (the givens). -/
def Agrees (b0 b : Board) : Prop := ∀ r c : Fin 9, b0 r c ≠ 0 → b r c = b0 r c

/-- b is solvable by `sudoku_solve`: some process state makes the call
return OK. -/
def Solvable (b : Board) : Prop :=
  ∃ s b2 s2, sudoku_solve (some b) s = (SUDOKU_OK, some b2, s2)

/-- Boolean check: the board is fully filled with digits 1..9 and passes the
validator. -/
def boardFilledValid (b : Board) : Bool :=
  sudoku_is_valid_partial b && allCells.all fun p => is_in_range_1_9 (b p.1 p.2)

/-- Boolean check: every non-zero cell of p equals sol at that position. -/
def subBoardOf (p sol : Board) : Bool :=
  allCells.all fun q => (p q.1 q.2 == 0) || (p q.1 q.2 == sol q.1 q.2)

/-- A board given by an explicit list of rows (for concrete instances). -/
def ofLists (l : List (List Int)) : Board :=
  fun r c => (l.getD r.val []).getD c.val 0


/-! Basic lemmas about `update`, `allCells`, `find_empty_cell`, `count_holes`. -/

theorem update_same (b : Board) (r c : Fin 9) (v : Int) : update b r c v r c = v := by
  simp [update]

theorem update_other (b : Board) (r c : Fin 9) (v : Int) (r' c' : Fin 9)
    (h : ¬(r' = r ∧ c' = c)) : update b r c v r' c' = b r' c' := by
  simp [update, h]

theorem update_update (b : Board) (r c : Fin 9) (v w : Int) :
    update (update b r c v) r c w = update b r c w := by
  funext r' c'
  by_cases h : r' = r ∧ c' = c <;> simp [update, h]

theorem update_self (b : Board) (r c : Fin 9) (h : b r c = 0) : update b r c 0 = b := by
  funext r' c'
  by_cases hrc : r' = r ∧ c' = c
  · rw [hrc.1, hrc.2, update_same, h]
  · rw [update_other _ _ _ _ _ _ hrc]

theorem allCells_mem (p : Fin 9 × Fin 9) : p ∈ allCells := by
  unfold allCells
  rw [List.mem_flatMap]
  exact ⟨p.1, List.mem_finRange _, List.mem_map.mpr ⟨p.2, List.mem_finRange _, rfl⟩⟩

theorem allCells_nodup : allCells.Nodup := by decide

theorem find_empty_none_iff (b : Board) :
    find_empty_cell b = none ↔ ∀ r c : Fin 9, b r c ≠ 0 := by
  unfold find_empty_cell
  rw [List.find?_eq_none]
  constructor
  · intro h r c
    have := h (r, c) (allCells_mem _)
    simpa using this
  · intro h p _
    simpa using h p.1 p.2

theorem find_empty_some (b : Board) (rc : Fin 9 × Fin 9)
    (h : find_empty_cell b = some rc) : b rc.1 rc.2 = 0 := by
  have := List.find?_some h
  simpa using this

theorem countP_change {α : Type} (p q : α → Bool) (a : α) (l : List α) (hnd : l.Nodup)
    (hmem : a ∈ l) (hp : p a = true) (hq : q a = false)
    (hagree : ∀ x, x ≠ a → q x = p x) : l.countP q + 1 = l.countP p := by
  induction l with
  | nil => cases hmem
  | cons x t ih =>
    rcases List.mem_cons.mp hmem with rfl | hmem'
    · have ht : t.countP q = t.countP p := by
        apply List.countP_congr
        intro y hy
        rw [hagree y (fun hya => (List.nodup_cons.mp hnd).1 (hya ▸ hy))]
      rw [List.countP_cons, List.countP_cons, hp, hq, ht]
      simp
    · have hqp : q x = p x :=
        hagree x (fun h => by subst h; exact (List.nodup_cons.mp hnd).1 hmem')
      rw [List.countP_cons, List.countP_cons, hqp]
      have := ih (List.nodup_cons.mp hnd).2 hmem'
      omega

theorem count_holes_update_fill (b : Board) (r c : Fin 9) (v : Int) (hb : b r c = 0)
    (hv : v ≠ 0) : count_holes (update b r c v) + 1 = count_holes b := by
  unfold count_holes
  apply countP_change _ _ (r, c) allCells allCells_nodup (allCells_mem _)
  · simp [hb]
  · simp [update_same, hv]
  · intro x hx
    have : ¬(x.1 = r ∧ x.2 = c) := by
      intro hc
      exact hx (Prod.ext hc.1 hc.2)
    simp [update_other _ _ _ _ _ _ this]

theorem count_holes_update_zero (b : Board) (r c : Fin 9) (hb : b r c ≠ 0) :
    count_holes b + 1 = count_holes (update b r c 0) := by
  unfold count_holes
  apply countP_change _ _ (r, c) allCells allCells_nodup (allCells_mem _)
  · simp [update_same]
  · simp [hb]
  · intro x hx
    have : ¬(x.1 = r ∧ x.2 = c) := by
      intro hc
      exact hx (Prod.ext hc.1 hc.2)
    simp [update_other _ _ _ _ _ _ this]

theorem count_holes_le (b : Board) : count_holes b ≤ 81 := by
  have h : allCells.countP (fun p => b p.1 p.2 == 0) ≤ allCells.length :=
    List.countP_le_length _
  have hlen : allCells.length = 81 := by decide
  unfold count_holes
  omega

/-! Propositional characterizations of the validator. -/

theorem toFin9_coe (x : Fin 9) : toFin9 (x.val : Int) = x := by
  apply Fin.ext
  simp [toFin9]

theorem can_place_fin_iff (b : Board) (row col : Fin 9) (v : Int) :
    sudoku_can_place b (row.val : Int) (col.val : Int) v = true ↔
      (1 ≤ v ∧ v ≤ 9) ∧ (∀ i : Fin 9, b row i ≠ v) ∧ (∀ i : Fin 9, b i col ≠ v) ∧
      ∀ i j : Fin 9, i.val / 3 = row.val / 3 → j.val / 3 = col.val / 3 → b i j ≠ v := by
  have hr0 : (0 : Int) ≤ (row.val : Int) := Int.ofNat_nonneg _
  have hr9 : ((row.val : Int)) < 9 := by exact_mod_cast row.isLt
  have hc0 : (0 : Int) ≤ (col.val : Int) := Int.ofNat_nonneg _
  have hc9 : ((col.val : Int)) < 9 := by exact_mod_cast col.isLt
  unfold sudoku_can_place
  rw [if_neg (by push_neg; exact ⟨hr0, hr9, hc0, hc9⟩)]
  by_cases hv : 1 ≤ v ∧ v ≤ 9
  · have hvb : is_in_range_1_9 v = true := decide_eq_true hv
    rw [hvb]
    simp only [Bool.not_true, toFin9_coe]
    rw [if_neg (by simp)]
    simp only [Bool.and_eq_true, List.all_eq_true, List.mem_finRange, true_implies,
      Bool.not_eq_true', beq_eq_false_iff_ne, Bool.or_eq_true, decide_eq_true_eq,
      forall_const]
    constructor
    · intro h
      refine ⟨hv, fun i => (h.1 i).1, fun i => (h.1 i).2, fun i j hi hj => ?_⟩
      rcases h.2 i j with hno | hne
      · exact absurd hno (by simp [hi, hj])
      · exact hne
    · intro h
      refine ⟨fun i => ⟨h.2.1 i, h.2.2.1 i⟩, fun i j => ?_⟩
      by_cases hbox : i.val / 3 = row.val / 3 ∧ j.val / 3 = col.val / 3
      · exact Or.inr (h.2.2.2 i j hbox.1 hbox.2)
      · refine Or.inl ?_
        by_cases hp : i.val / 3 = row.val / 3
        · have hq : ¬(j.val / 3 = col.val / 3) := fun hq => hbox ⟨hp, hq⟩
          simp [hp, hq]
        · simp [hp]
  · have hvb : is_in_range_1_9 v = false := decide_eq_false hv
    rw [hvb]
    simp [hv]

theorem can_place_out_of_range (b : Board) (row col v : Int)
    (h : row < 0 ∨ 9 ≤ row ∨ col < 0 ∨ 9 ≤ col ∨ v < 1 ∨ 9 < v) :
    sudoku_can_place b row col v = false := by
  unfold sudoku_can_place
  by_cases h1 : row < 0 ∨ 9 ≤ row ∨ col < 0 ∨ 9 ≤ col
  · rw [if_pos h1]
  · rw [if_neg h1]
    push_neg at h1
    obtain ⟨ha, hb2, hc2, hd⟩ := h1
    have hv : ¬(1 ≤ v ∧ v ≤ 9) := by
      rcases h with h | h | h | h | h | h
      · omega
      · omega
      · omega
      · omega
      · omega
      · omega
    have hvb : is_in_range_1_9 v = false := by
      unfold is_in_range_1_9
      exact decide_eq_false hv
    rw [hvb]
    simp

theorem valid_partial_iff (b : Board) :
    sudoku_is_valid_partial b = true ↔
      ∀ r c : Fin 9, b r c ≠ 0 →
        (1 ≤ b r c ∧ b r c ≤ 9) ∧
        sudoku_can_place (update b r c 0) (r.val : Int) (c.val : Int) (b r c) = true := by
  unfold sudoku_is_valid_partial
  simp only [List.all_eq_true, List.mem_finRange, true_implies]
  apply forall_congr'
  intro r
  apply forall_congr'
  intro c
  by_cases h : b r c = 0
  · simp [h]
  · rw [if_neg (by simp [h])]
    simp [Bool.and_eq_true, is_in_range_1_9, h, decide_eq_true_eq, and_assoc]

theorem update_comm (b : Board) (r c r' c' : Fin 9) (x y : Int)
    (h : ¬(r' = r ∧ c' = c)) :
    update (update b r c x) r' c' y = update (update b r' c' y) r c x := by
  funext a a'
  by_cases h1 : a = r' ∧ a' = c'
  · have h2 : ¬(a = r ∧ a' = c) := fun hc => h ⟨h1.1.symm.trans hc.1, h1.2.symm.trans hc.2⟩
    simp [update, h1, h2, h]
  · by_cases h2 : a = r ∧ a' = c
    · simp only [update, if_pos h2, if_neg h1]
    · simp [update, h1, h2]

theorem valid_extend (b : Board) (row col : Fin 9) (v : Int)
    (hvalid : sudoku_is_valid_partial b = true) (hempty : b row col = 0)
    (hcp : sudoku_can_place b (row.val : Int) (col.val : Int) v = true) :
    sudoku_is_valid_partial (update b row col v) = true := by
  rw [valid_partial_iff] at hvalid ⊢
  rw [can_place_fin_iff] at hcp
  obtain ⟨hv19, hrowok, hcolok, hboxok⟩ := hcp
  intro r c hne
  by_cases hrc : r = row ∧ c = col
  · obtain ⟨h1, h2⟩ := hrc
    subst h1
    subst h2
    rw [update_same] at hne ⊢
    rw [update_update, update_self _ _ _ hempty]
    exact ⟨hv19, (can_place_fin_iff b r c v).mpr ⟨hv19, hrowok, hcolok, hboxok⟩⟩
  · have hval : update b row col v r c = b r c := update_other _ _ _ _ _ _ hrc
    rw [hval] at hne ⊢
    obtain ⟨hrange, hcpold⟩ := hvalid r c hne
    refine ⟨hrange, ?_⟩
    rw [update_comm _ _ _ _ _ _ _ hrc]
    rw [can_place_fin_iff] at hcpold
    obtain ⟨hwrange, hrowold, hcolold, hboxold⟩ := hcpold
    apply (can_place_fin_iff _ _ _ _).mpr
    refine ⟨hwrange, ?_, ?_, ?_⟩
    · intro i
      by_cases hri : r = row ∧ i = col
      · obtain ⟨hq1, hq2⟩ := hri
        rw [hq1, hq2, update_same]
        intro hvw
        exact hrowok c hvw.symm
      · rw [update_other _ _ _ _ _ _ hri]
        exact hrowold i
    · intro i
      by_cases hic : i = row ∧ c = col
      · obtain ⟨hq1, hq2⟩ := hic
        rw [hq1, hq2, update_same]
        intro hvw
        exact hcolok r hvw.symm
      · rw [update_other _ _ _ _ _ _ hic]
        exact hcolold i
    · intro i j hi hj
      by_cases hij : i = row ∧ j = col
      · obtain ⟨hq1, hq2⟩ := hij
        rw [hq1, hq2, update_same]
        intro hvw
        exact hboxok r c ((hq1 ▸ hi).symm) ((hq2 ▸ hj).symm) hvw.symm
      · rw [update_other _ _ _ _ _ _ hij]
        exact hboxold i j hi hj

/-! Solver lemmas: the search restores the board on failure, is sound on
success, and never runs out of fuel above the hole count. -/

theorem agrees_update (b : Board) (row col : Fin 9) (v : Int) (h : b row col = 0) :
    Agrees b (update b row col v) := by
  intro r c hne
  have hd : ¬(r = row ∧ c = col) := fun hc => hne (by rw [hc.1, hc.2]; exact h)
  exact update_other _ _ _ _ _ _ hd

theorem agrees_trans (a b c : Board) (h1 : Agrees a b) (h2 : Agrees b c) : Agrees a c := by
  intro r cc hne
  have hb := h1 r cc hne
  have hbne : b r cc ≠ 0 := by rw [hb]; exact hne
  rw [h2 r cc hbne, hb]

theorem tryCands_restore (solver : Board → Rng → Option (Bool × Board × Rng))
    (hs : ∀ b g b' g', solver b g = some (false, b', g') → b' = b) (row col : Fin 9) :
    ∀ (nums : List Int) (b : Board) (g : Rng) (b' : Board) (g' : Rng),
      b row col = 0 → tryCands solver row col nums b g = some (false, b', g') → b' = b := by
  intro nums
  induction nums with
  | nil =>
    intro b g b' g' _ h
    simp only [tryCands, Option.some.injEq, Prod.mk.injEq] at h
    exact h.2.1.symm
  | cons v rest ih =>
    intro b g b' g' hbrc h
    rw [tryCands] at h
    by_cases hcp : sudoku_can_place b (row.val : Int) (col.val : Int) v = true
    · rw [if_pos hcp] at h
      cases hsr : solver (update b row col v) g with
      | none => rw [hsr] at h; cases h
      | some res =>
        rw [hsr] at h
        obtain ⟨ok, b2, g2⟩ := res
        cases ok
        · have hb2 : b2 = update b row col v := hs _ _ _ _ hsr
          have h2 : tryCands solver row col rest (update b2 row col 0) g2 =
              some (false, b', g') := h
          rw [hb2, update_update, update_self _ _ _ hbrc] at h2
          exact ih b g2 b' g' hbrc h2
        · have h2 : some ((true : Bool), b2, g2) = some ((false : Bool), b', g') := h
          simp at h2
    · rw [if_neg hcp] at h
      exact ih b g b' g' hbrc h

theorem solveBT_restore : ∀ (fuel : Nat) (b : Board) (g : Rng) (b' : Board) (g' : Rng),
    solveBT fuel b g = some (false, b', g') → b' = b := by
  intro fuel
  induction fuel with
  | zero =>
    intro b g b' g' h
    rw [solveBT_zero] at h
    cases h
  | succ fuel ih =>
    intro b g b' g' h
    rw [solveBT_succ] at h
    cases hfe : find_empty_cell b with
    | none =>
      rw [hfe] at h
      have h2 : some ((true : Bool), b, g) = some ((false : Bool), b', g') := h
      simp at h2
    | some rc =>
      rw [hfe] at h
      exact tryCands_restore (solveBT fuel) ih rc.1 rc.2 _ b _ b' g'
        (find_empty_some b rc hfe) h

theorem tryCands_sound (solver : Board → Rng → Option (Bool × Board × Rng))
    (hrest : ∀ b g b' g', solver b g = some (false, b', g') → b' = b)
    (hsound : ∀ b g b' g', sudoku_is_valid_partial b = true →
      solver b g = some (true, b', g') →
      sudoku_is_valid_partial b' = true ∧ (∀ r c : Fin 9, b' r c ≠ 0) ∧ Agrees b b')
    (row col : Fin 9) :
    ∀ (nums : List Int) (b : Board) (g : Rng) (b' : Board) (g' : Rng),
      sudoku_is_valid_partial b = true → b row col = 0 →
      tryCands solver row col nums b g = some (true, b', g') →
      sudoku_is_valid_partial b' = true ∧ (∀ r c : Fin 9, b' r c ≠ 0) ∧ Agrees b b' := by
  intro nums
  induction nums with
  | nil =>
    intro b g b' g' _ _ h
    simp [tryCands] at h
  | cons v rest ih =>
    intro b g b' g' hv hbrc h
    rw [tryCands] at h
    by_cases hcp : sudoku_can_place b (row.val : Int) (col.val : Int) v = true
    · rw [if_pos hcp] at h
      cases hsr : solver (update b row col v) g with
      | none => rw [hsr] at h; cases h
      | some res =>
        rw [hsr] at h
        obtain ⟨ok, b2, g2⟩ := res
        cases ok
        · have hb2 : b2 = update b row col v := hrest _ _ _ _ hsr
          have h2 : tryCands solver row col rest (update b2 row col 0) g2 =
              some (true, b', g') := h
          rw [hb2, update_update, update_self _ _ _ hbrc] at h2
          exact ih b g2 b' g' hv hbrc h2
        · have h2 : some ((true : Bool), b2, g2) = some ((true : Bool), b', g') := h
          simp only [Option.some.injEq, Prod.mk.injEq] at h2
          obtain ⟨_, hb2, _⟩ := h2
          subst hb2
          have hvext := valid_extend b row col v hv hbrc hcp
          obtain ⟨h1, h2, h3⟩ := hsound _ _ _ _ hvext hsr
          exact ⟨h1, h2, agrees_trans b (update b row col v) b2
            (agrees_update b row col v hbrc) h3⟩
    · rw [if_neg hcp] at h
      exact ih b g b' g' hv hbrc h

theorem solveBT_sound : ∀ (fuel : Nat) (b : Board) (g : Rng) (b' : Board) (g' : Rng),
    sudoku_is_valid_partial b = true → solveBT fuel b g = some (true, b', g') →
    sudoku_is_valid_partial b' = true ∧ (∀ r c : Fin 9, b' r c ≠ 0) ∧ Agrees b b' := by
  intro fuel
  induction fuel with
  | zero =>
    intro b g b' g' _ h
    rw [solveBT_zero] at h
    cases h
  | succ fuel ih =>
    intro b g b' g' hv h
    rw [solveBT_succ] at h
    cases hfe : find_empty_cell b with
    | none =>
      rw [hfe] at h
      have h2 : some ((true : Bool), b, g) = some ((true : Bool), b', g') := h
      simp only [Option.some.injEq, Prod.mk.injEq] at h2
      obtain ⟨_, hb, _⟩ := h2
      subst hb
      exact ⟨hv, (find_empty_none_iff b).mp hfe, fun r c _ => rfl⟩
    | some rc =>
      rw [hfe] at h
      exact tryCands_sound (solveBT fuel) (solveBT_restore fuel) ih rc.1 rc.2 _ b _ b' g'
        hv (find_empty_some b rc hfe) h

theorem tryCands_isSome (solver : Board → Rng → Option (Bool × Board × Rng)) (F : Nat)
    (hrest : ∀ b g b' g', solver b g = some (false, b', g') → b' = b)
    (htot : ∀ b g, count_holes b < F → solver b g ≠ none) (row col : Fin 9) :
    ∀ (nums : List Int) (b : Board) (g : Rng),
      b row col = 0 → count_holes b ≤ F → tryCands solver row col nums b g ≠ none := by
  intro nums
  induction nums with
  | nil =>
    intro b g _ _ h
    simp [tryCands] at h
  | cons v rest ih =>
    intro b g hbrc hF h
    rw [tryCands] at h
    by_cases hcp : sudoku_can_place b (row.val : Int) (col.val : Int) v = true
    · rw [if_pos hcp] at h
      have hv9 := ((can_place_fin_iff b row col v).mp hcp).1
      have hvne : v ≠ 0 := by omega
      have hcount : count_holes (update b row col v) + 1 = count_holes b :=
        count_holes_update_fill b row col v hbrc hvne
      cases hsr : solver (update b row col v) g with
      | none => exact absurd hsr (htot _ _ (by omega))
      | some res =>
        rw [hsr] at h
        obtain ⟨ok, b2, g2⟩ := res
        cases ok
        · have hb2 : b2 = update b row col v := hrest _ _ _ _ hsr
          have h2 : tryCands solver row col rest (update b2 row col 0) g2 = none := h
          rw [hb2, update_update, update_self _ _ _ hbrc] at h2
          exact ih b g2 hbrc hF h2
        · exact Option.noConfusion h
    · rw [if_neg hcp] at h
      exact ih b g hbrc hF h

theorem solveBT_isSome : ∀ (fuel : Nat) (b : Board) (g : Rng),
    count_holes b < fuel → solveBT fuel b g ≠ none := by
  intro fuel
  induction fuel with
  | zero =>
    intro b g hlt
    omega
  | succ fuel ih =>
    intro b g hlt h
    rw [solveBT_succ] at h
    cases hfe : find_empty_cell b with
    | none => rw [hfe] at h; cases h
    | some rc =>
      rw [hfe] at h
      exact tryCands_isSome (solveBT fuel) fuel (solveBT_restore fuel) ih rc.1 rc.2 _ b _
        (find_empty_some b rc hfe) (by omega) h

theorem solve_backtrack_some (b : Board) (g : Rng) :
    solveBT 82 b g = some (solve_backtrack b g) := by
  cases hs : solveBT 82 b g with
  | none =>
    exact absurd hs (solveBT_isSome 82 b g (by have := count_holes_le b; omega))
  | some r =>
    simp [solve_backtrack, hs]

theorem solve_backtrack_restore (b : Board) (g : Rng) (b' : Board) (g' : Rng)
    (h : solve_backtrack b g = (false, b', g')) : b' = b := by
  have hs := solve_backtrack_some b g
  rw [h] at hs
  exact solveBT_restore 82 b g b' g' hs

theorem solve_backtrack_sound (b : Board) (g : Rng) (b' : Board) (g' : Rng)
    (hv : sudoku_is_valid_partial b = true) (h : solve_backtrack b g = (true, b', g')) :
    sudoku_is_valid_partial b' = true ∧ (∀ r c : Fin 9, b' r c ≠ 0) ∧ Agrees b b' := by
  have hs := solve_backtrack_some b g
  rw [h] at hs
  exact solveBT_sound 82 b g b' g' hv hs

theorem solve_backtrack_of_filled (b : Board) (g : Rng) (h : ∀ r c : Fin 9, b r c ≠ 0) :
    solve_backtrack b g = (true, b, g) := by
  have hfe : find_empty_cell b = none := (find_empty_none_iff b).mpr h
  have hbt : solveBT 82 b g = some (true, b, g) := by
    rw [show (82 : Nat) = 81 + 1 from rfl, solveBT_succ, hfe]
  simp [solve_backtrack, hbt]

/-! Lemmas about `sudoku_solve` and the generators. -/

theorem sudoku_solve_none (s : SudokuState) :
    sudoku_solve none s = (SUDOKU_ERR_INVALID_ARG, none, s) := rfl

theorem sudoku_solve_invalid (b : Board) (s : SudokuState)
    (h : sudoku_is_valid_partial b = false) :
    sudoku_solve (some b) s = (SUDOKU_ERR_UNSOLVABLE, some b, seed_if_needed s) := by
  simp [sudoku_solve, h]

theorem sudoku_solve_fail (b : Board) (s : SudokuState) (b' : Board) (g' : Rng)
    (hv : sudoku_is_valid_partial b = true)
    (hbt : solve_backtrack b (seed_if_needed s).rng = (false, b', g')) :
    sudoku_solve (some b) s =
      (SUDOKU_ERR_UNSOLVABLE, some b', { seed_if_needed s with rng := g' }) := by
  simp [sudoku_solve, hv, hbt]

theorem sudoku_solve_succeed (b : Board) (s : SudokuState) (b' : Board) (g' : Rng)
    (hv : sudoku_is_valid_partial b = true)
    (hbt : solve_backtrack b (seed_if_needed s).rng = (true, b', g')) :
    sudoku_solve (some b) s = (SUDOKU_OK, some b', { seed_if_needed s with rng := g' }) := by
  simp [sudoku_solve, hv, hbt]

theorem sudoku_solve_cases (b : Board) (s : SudokuState) :
    ( sudoku_is_valid_partial b = false ∧
      sudoku_solve (some b) s = (SUDOKU_ERR_UNSOLVABLE, some b, seed_if_needed s)) ∨
    ( sudoku_is_valid_partial b = true ∧ ∃ ok b' g',
      solve_backtrack b (seed_if_needed s).rng = (ok, b', g') ∧
      sudoku_solve (some b) s =
        (if ok then SUDOKU_OK else SUDOKU_ERR_UNSOLVABLE, some b',
          { seed_if_needed s with rng := g' })) := by
  cases hv : sudoku_is_valid_partial b with
  | false => exact Or.inl ⟨rfl, sudoku_solve_invalid b s hv⟩
  | true =>
    refine Or.inr ⟨rfl, ?_⟩
    rcases hbt : solve_backtrack b (seed_if_needed s).rng with ⟨ok, b', g'⟩
    refine ⟨ok, b', g', rfl, ?_⟩
    cases ok
    · simpa using sudoku_solve_fail b s b' g' hv hbt
    · simpa using sudoku_solve_succeed b s b' g' hv hbt

theorem filled_of_valid_nonzero (b : Board) (hv : sudoku_is_valid_partial b = true)
    (hnz : ∀ r c : Fin 9, b r c ≠ 0) : FilledBoard b := by
  intro r c
  exact ((valid_partial_iff b).mp hv r c (hnz r c)).1

theorem valid_clear : sudoku_is_valid_partial sudoku_clear = true := by decide

theorem solve_of_solved (b : Board) (s : SudokuState)
    (hv : sudoku_is_valid_partial b = true) (hf : ∀ r c : Fin 9, b r c ≠ 0) :
    sudoku_solve (some b) s = (SUDOKU_OK, some b, seed_if_needed s) :=
  sudoku_solve_succeed b s b (seed_if_needed s).rng hv
    (solve_backtrack_of_filled b (seed_if_needed s).rng hf)

theorem sudoku_solve_some_some (b : Board) (s : SudokuState) :
    ∃ b', (sudoku_solve (some b) s).2.1 = some b' := by
  cases hv : sudoku_is_valid_partial b
  · exact ⟨b, by rw [sudoku_solve_invalid b s hv]⟩
  · rcases hbt : solve_backtrack b (seed_if_needed s).rng with ⟨ok, b', g'⟩
    cases ok
    · exact ⟨b', by rw [sudoku_solve_fail b s b' g' hv hbt]⟩
    · exact ⟨b', by rw [sudoku_solve_succeed b s b' g' hv hbt]⟩

theorem gen_solution_some_eq (qb : Board) (s : SudokuState) :
    sudoku_generate_solution (some qb) s =
      (if (solve_backtrack sudoku_clear (seed_if_needed s).rng).1
       then (SUDOKU_OK, some (solve_backtrack sudoku_clear (seed_if_needed s).rng).2.1,
         { seed_if_needed s with rng := (solve_backtrack sudoku_clear (seed_if_needed s).rng).2.2 })
       else (SUDOKU_ERR_UNSOLVABLE,
         some (solve_backtrack sudoku_clear (seed_if_needed s).rng).2.1,
         { seed_if_needed s with rng := (solve_backtrack sudoku_clear (seed_if_needed s).rng).2.2 })) :=
  rfl

theorem gen_solution_ok (b0 : Board) (s : SudokuState) (sol : Board) (s2 : SudokuState)
    (h : sudoku_generate_solution (some b0) s = (SUDOKU_OK, some sol, s2)) :
    sudoku_is_valid_partial sol = true ∧ (∀ r c : Fin 9, sol r c ≠ 0) := by
  rw [gen_solution_some_eq] at h
  rcases hbt : solve_backtrack sudoku_clear (seed_if_needed s).rng with ⟨ok, b', g'⟩
  rw [hbt] at h
  cases ok
  · simp at h
  · simp only [if_true] at h
    have hsol : b' = sol := by
      have := congrArg (fun t => t.2.1) h
      simpa using this
    subst hsol
    have hs := solve_backtrack_sound sudoku_clear (seed_if_needed s).rng b' g' valid_clear hbt
    exact ⟨hs.1, hs.2.1⟩

theorem gen_solution_board_some (qb : Board) (s : SudokuState) :
    ∃ b', (sudoku_generate_solution (some qb) s).2.1 = some b' := by
  rw [gen_solution_some_eq]
  by_cases h : (solve_backtrack sudoku_clear (seed_if_needed s).rng).1 <;> simp [h]

theorem gen_puzzle_some_some_eq (pb qb : Board) (d : Int) (s : SudokuState) :
    sudoku_generate_puzzle (some pb) (some qb) d s = generate_puzzle_core (some pb) qb d s :=
  rfl

theorem generate_puzzle_core_ok (p0 : Option Board) (qb sol : Board) (d : Int)
    (s s2 : SudokuState)
    (h : sudoku_generate_solution (some qb) (seed_if_needed s) = (SUDOKU_OK, some sol, s2)) :
    generate_puzzle_core p0 qb d s =
      (SUDOKU_OK,
       some (carve_loop (sudoku_holes_for_difficulty d) 2000 sol s2).1, some sol,
       (carve_loop (sudoku_holes_for_difficulty d) 2000 sol s2).2.1) := by
  unfold generate_puzzle_core
  rw [h]

theorem generate_puzzle_core_fail (p0 : Option Board) (qb : Board) (d : Int)
    (s s2 : SudokuState) (r : SudokuResult) (bo : Option Board)
    (h : sudoku_generate_solution (some qb) (seed_if_needed s) = (r, bo, s2))
    (hr : r ≠ SUDOKU_OK) :
    generate_puzzle_core p0 qb d s = (r, p0, bo, s2) := by
  unfold generate_puzzle_core
  rw [h]
  cases r with
  | SUDOKU_OK => exact absurd rfl hr
  | SUDOKU_ERR_INVALID_ARG => cases bo <;> rfl
  | SUDOKU_ERR_UNSOLVABLE => cases bo <;> rfl
  | SUDOKU_ERR_IO => cases bo <;> rfl

/-! Step equations and invariants of the carving loop. -/

theorem carve_exit (target : Int) (rem : Nat) (b : Board) (s : SudokuState)
    (h : ¬((count_holes b : Int) < target)) :
    carve_loop target (rem + 1) b s = (b, s, 0) := by
  simp only [carve_loop]
  rw [if_neg h]

theorem carve_skip (target : Int) (rem : Nat) (b : Board) (s : SudokuState)
    (h1 : (count_holes b : Int) < target) (h2 : b (carve_rr s) (carve_cc s) = 0) :
    carve_loop target (rem + 1) b s =
      ((carve_loop target rem b (carve_s2 s)).1,
       (carve_loop target rem b (carve_s2 s)).2.1,
       (carve_loop target rem b (carve_s2 s)).2.2 + 1) := by
  simp only [carve_loop]
  rw [if_pos h1, if_pos (by simp [h2])]

theorem carve_keep (target : Int) (rem : Nat) (b : Board) (s : SudokuState)
    (bo : Option Board) (s3 : SudokuState)
    (h1 : (count_holes b : Int) < target) (h2 : ¬(b (carve_rr s) (carve_cc s) = 0))
    (h3 : sudoku_solve (some (update b (carve_rr s) (carve_cc s) 0)) (carve_s2 s) =
      (SUDOKU_OK, bo, s3)) :
    carve_loop target (rem + 1) b s =
      ((carve_loop target rem (update b (carve_rr s) (carve_cc s) 0) s3).1,
       (carve_loop target rem (update b (carve_rr s) (carve_cc s) 0) s3).2.1,
       (carve_loop target rem (update b (carve_rr s) (carve_cc s) 0) s3).2.2 + 1) := by
  simp only [carve_loop]
  rw [if_pos h1, if_neg (by simp [h2]), h3]

theorem carve_veto (target : Int) (rem : Nat) (b : Board) (s : SudokuState)
    (r : SudokuResult) (bo : Option Board) (s3 : SudokuState)
    (h1 : (count_holes b : Int) < target) (h2 : ¬(b (carve_rr s) (carve_cc s) = 0))
    (h3 : sudoku_solve (some (update b (carve_rr s) (carve_cc s) 0)) (carve_s2 s) = (r, bo, s3))
    (hr : r ≠ SUDOKU_OK) :
    carve_loop target (rem + 1) b s =
      ((carve_loop target rem b s3).1, (carve_loop target rem b s3).2.1,
       (carve_loop target rem b s3).2.2 + 1) := by
  simp only [carve_loop]
  rw [if_pos h1, if_neg (by simp [h2]), h3]
  cases r with
  | SUDOKU_OK => exact absurd rfl hr
  | SUDOKU_ERR_INVALID_ARG => rfl
  | SUDOKU_ERR_UNSOLVABLE => rfl
  | SUDOKU_ERR_IO => rfl

theorem carve_loop_spec (target : Int) : ∀ (rem : Nat) (b : Board) (s : SudokuState),
    (∀ r c : Fin 9, (carve_loop target rem b s).1 r c ≠ 0 →
      (carve_loop target rem b s).1 r c = b r c) ∧
    ((count_holes b : Int) ≤ target →
      (count_holes (carve_loop target rem b s).1 : Int) ≤ target) ∧
    (carve_loop target rem b s).2.2 ≤ rem ∧
    ((carve_loop target rem b s).2.2 < rem →
      target ≤ (count_holes (carve_loop target rem b s).1 : Int)) ∧
    (Solvable b → Solvable (carve_loop target rem b s).1) := by
  intro rem
  induction rem with
  | zero =>
    intro b s
    have h0 : carve_loop target 0 b s = (b, s, 0) := rfl
    rw [h0]
    exact ⟨fun r c _ => rfl, fun h => h, Nat.le_refl 0, fun h => absurd h (by simp),
      fun h => h⟩
  | succ rem ih =>
    intro b s
    by_cases htar : (count_holes b : Int) < target
    · by_cases hcell : b (carve_rr s) (carve_cc s) = 0
      · rw [carve_skip target rem b s htar hcell]
        obtain ⟨i1, i2, i3, i4, i5⟩ := ih b (carve_s2 s)
        refine ⟨i1, i2, ?_, ?_, i5⟩
        · show (carve_loop target rem b (carve_s2 s)).2.2 + 1 ≤ rem + 1
          omega
        · intro h
          have h2 : (carve_loop target rem b (carve_s2 s)).2.2 + 1 < rem + 1 := h
          exact i4 (by omega)
      · rcases hsolve : sudoku_solve (some (update b (carve_rr s) (carve_cc s) 0)) (carve_s2 s)
          with ⟨res, bo, s3⟩
        by_cases hres : res = SUDOKU_OK
        · subst hres
          rw [carve_keep target rem b s bo s3 htar hcell hsolve]
          obtain ⟨i1, i2, i3, i4, i5⟩ := ih (update b (carve_rr s) (carve_cc s) 0) s3
          refine ⟨?_, ?_, ?_, ?_, ?_⟩
          · intro r c hne
            have hx := i1 r c hne
            by_cases hrc : r = carve_rr s ∧ c = carve_cc s
            · exfalso
              apply hne
              rw [hx, hrc.1, hrc.2, update_same]
            · rw [hx, update_other _ _ _ _ _ _ hrc]
          · intro _
            apply i2
            have hz := count_holes_update_zero b (carve_rr s) (carve_cc s) hcell
            omega
          · show (carve_loop target rem (update b (carve_rr s) (carve_cc s) 0) s3).2.2 + 1 ≤
              rem + 1
            omega
          · intro h
            have h2 : (carve_loop target rem (update b (carve_rr s) (carve_cc s) 0) s3).2.2 + 1 <
              rem + 1 := h
            exact i4 (by omega)
          · intro _
            apply i5
            obtain ⟨b2, hb2⟩ :=
              sudoku_solve_some_some (update b (carve_rr s) (carve_cc s) 0) (carve_s2 s)
            rw [hsolve] at hb2
            have hbo : bo = some b2 := hb2
            exact ⟨carve_s2 s, b2, s3, by rw [hsolve, hbo]⟩
        · rw [carve_veto target rem b s res bo s3 htar hcell hsolve hres]
          obtain ⟨i1, i2, i3, i4, i5⟩ := ih b s3
          refine ⟨i1, i2, ?_, ?_, i5⟩
          · show (carve_loop target rem b s3).2.2 + 1 ≤ rem + 1
            omega
          · intro h
            have h2 : (carve_loop target rem b s3).2.2 + 1 < rem + 1 := h
            exact i4 (by omega)
    · rw [carve_exit target rem b s htar]
      refine ⟨fun r c _ => rfl, fun h => h, Nat.zero_le _, fun _ => ?_, fun h => h⟩
      show target ≤ (count_holes b : Int)
      omega

/-! Concrete instances used by witnesses. -/

/-- A concrete process state (seeded, stream of zeros). -/
def state0 : SudokuState := ⟨fun _ _ => 0, true, ⟨fun _ => 0, 0⟩⟩

/-- A concrete unseeded process state sharing state0's stream family. -/
def stateB : SudokuState := ⟨fun _ _ => 0, false, ⟨fun n => n, 3⟩⟩

/-- A board with a duplicated 5 in row 0 (rejected by the validator). -/
def badRowBoard : Board := ofLists [[5, 5]]

/-- A fully solved valid board (cyclic pattern). -/
def solvedBoard : Board := ofLists [
  [1,2,3,4,5,6,7,8,9],
  [4,5,6,7,8,9,1,2,3],
  [7,8,9,1,2,3,4,5,6],
  [2,3,4,5,6,7,8,9,1],
  [5,6,7,8,9,1,2,3,4],
  [8,9,1,2,3,4,5,6,7],
  [3,4,5,6,7,8,9,1,2],
  [6,7,8,9,1,2,3,4,5],
  [9,1,2,3,4,5,6,7,8]]

/-- `solvedBoard` with its (0,0) cell emptied. -/
def holedBoard : Board := ofLists [
  [0,2,3,4,5,6,7,8,9],
  [4,5,6,7,8,9,1,2,3],
  [7,8,9,1,2,3,4,5,6],
  [2,3,4,5,6,7,8,9,1],
  [5,6,7,8,9,1,2,3,4],
  [8,9,1,2,3,4,5,6,7],
  [3,4,5,6,7,8,9,1,2],
  [6,7,8,9,1,2,3,4,5],
  [9,1,2,3,4,5,6,7,8]]


/-! Remaining bridge lemmas. -/

theorem boardFilledValid_of (b : Board) (hv : sudoku_is_valid_partial b = true)
    (hnz : ∀ r c : Fin 9, b r c ≠ 0) : boardFilledValid b = true := by
  unfold boardFilledValid
  rw [hv]
  simp only [Bool.true_and, List.all_eq_true]
  intro p _
  exact decide_eq_true ((valid_partial_iff b).mp hv p.1 p.2 (hnz p.1 p.2)).1

theorem count_holes_eq_zero (b : Board) (hnz : ∀ r c : Fin 9, b r c ≠ 0) :
    count_holes b = 0 := by
  unfold count_holes
  rw [List.countP_eq_zero]
  intro p _
  simp [hnz p.1 p.2]

theorem holes_for_difficulty_nonneg (d : Int) : 0 ≤ sudoku_holes_for_difficulty d := by
  unfold sudoku_holes_for_difficulty
  split_ifs <;> norm_num

theorem toFin9_val (i : Int) (h0 : 0 ≤ i) (h9 : i < 9) : ((toFin9 i).val : Int) = i := by
  simp only [toFin9]
  have hlt : i.toNat < 9 := by omega
  rw [Nat.mod_eq_of_lt hlt]
  omega

/-! The claims. -/

/-- C1: `sudoku_solve` returns SUDOKU_ERR_INVALID_ARG on a null board; when
the validator rejects the board, or the backtracking search exhausts the
root, the result is SUDOKU_ERR_UNSOLVABLE; and whenever the result is
SUDOKU_OK, the board has been completed in place to a fully filled board
(all 81 cells in 1..9) that passes the validator and agrees with every cell
that was non-zero before the call. -/
theorem C1_solve_contract :
    (∀ s : SudokuState, sudoku_solve none s = (SUDOKU_ERR_INVALID_ARG, none, s)) ∧
    (∀ (b : Board) (s : SudokuState), sudoku_is_valid_partial b = false →
      (sudoku_solve (some b) s).1 = SUDOKU_ERR_UNSOLVABLE) ∧
    (∀ (b : Board) (s : SudokuState) (b' : Board) (g' : Rng),
      solve_backtrack b (seed_if_needed s).rng = (false, b', g') →
      (sudoku_solve (some b) s).1 = SUDOKU_ERR_UNSOLVABLE) ∧
    (∀ (b : Board) (s : SudokuState), (sudoku_solve (some b) s).1 = SUDOKU_OK →
      ∃ b' : Board, (sudoku_solve (some b) s).2.1 = some b' ∧ FilledBoard b' ∧
        sudoku_is_valid_partial b' = true ∧ Agrees b b') := by
  refine ⟨fun s => rfl, ?_, ?_, ?_⟩
  · intro b s h
    rw [sudoku_solve_invalid b s h]
  · intro b s b' g' hbt
    cases hv : sudoku_is_valid_partial b
    · rw [sudoku_solve_invalid b s hv]
    · rw [sudoku_solve_fail b s b' g' hv hbt]
  · intro b s hok
    rcases sudoku_solve_cases b s with ⟨hv, heq⟩ | ⟨hv, ok, b', g', hbt, heq⟩
    · rw [heq] at hok
      simp at hok
    · cases ok
      · rw [heq] at hok
        simp at hok
      · obtain ⟨hval, hnz, hagr⟩ := solve_backtrack_sound b _ b' g' hv hbt
        refine ⟨b', ?_, filled_of_valid_nonzero b' hval hnz, hval, hagr⟩
        rw [heq]

/-- Witness for C1: the null-board case, and a concrete invalid board
rejected with SUDOKU_ERR_UNSOLVABLE. -/
theorem C1_solve_contract_witness :
    sudoku_solve none state0 = (SUDOKU_ERR_INVALID_ARG, none, state0) ∧
    sudoku_is_valid_partial badRowBoard = false ∧
    (sudoku_solve (some badRowBoard) state0).1 = SUDOKU_ERR_UNSOLVABLE :=
  ⟨C1_solve_contract.1 state0, by decide,
    C1_solve_contract.2.1 badRowBoard state0 (by decide)⟩

/-- Inversion for `sudoku_generate_puzzle` with non-null out boards: either
the run succeeded and the outputs are the carved solution and the solution,
or solution generation failed and its failure is passed through with the
puzzle out-param untouched. -/
theorem gen_puzzle_inv (p0 q0 : Board) (d : Int) (s : SudokuState) (R : SudokuResult)
    (pz so : Option Board) (s' : SudokuState)
    (h : sudoku_generate_puzzle (some p0) (some q0) d s = (R, pz, so, s')) :
    (R = SUDOKU_OK ∧ ∃ sol s2,
      sudoku_generate_solution (some q0) (seed_if_needed s) = (SUDOKU_OK, some sol, s2) ∧
      so = some sol ∧
      pz = some (carve_loop (sudoku_holes_for_difficulty d) 2000 sol s2).1 ∧
      s' = (carve_loop (sudoku_holes_for_difficulty d) 2000 sol s2).2.1) ∨
    (R ≠ SUDOKU_OK ∧ pz = some p0 ∧
      sudoku_generate_solution (some q0) (seed_if_needed s) = (R, so, s')) := by
  rw [gen_puzzle_some_some_eq] at h
  rcases hg : sudoku_generate_solution (some q0) (seed_if_needed s) with ⟨res, bo, s2⟩
  cases res with
  | SUDOKU_OK =>
    cases bo with
    | none =>
      obtain ⟨b', hb'⟩ := gen_solution_board_some q0 (seed_if_needed s)
      rw [hg] at hb'
      exact absurd hb' (fun hh => Option.noConfusion hh)
    | some sol =>
      rw [generate_puzzle_core_ok (some p0) q0 sol d s s2 hg] at h
      simp only [Prod.mk.injEq] at h
      obtain ⟨hR, hpz, hso, hs'⟩ := h
      subst hR
      exact Or.inl ⟨rfl, sol, s2, rfl, hso.symm, hpz.symm, hs'.symm⟩
  | SUDOKU_ERR_INVALID_ARG =>
    rw [generate_puzzle_core_fail (some p0) q0 d s s2 _ bo hg (by decide)] at h
    simp only [Prod.mk.injEq] at h
    obtain ⟨hR, hpz, hso, hs'⟩ := h
    subst hR
    subst hso
    subst hs'
    exact Or.inr ⟨by decide, hpz.symm, rfl⟩
  | SUDOKU_ERR_UNSOLVABLE =>
    rw [generate_puzzle_core_fail (some p0) q0 d s s2 _ bo hg (by decide)] at h
    simp only [Prod.mk.injEq] at h
    obtain ⟨hR, hpz, hso, hs'⟩ := h
    subst hR
    subst hso
    subst hs'
    exact Or.inr ⟨by decide, hpz.symm, rfl⟩
  | SUDOKU_ERR_IO =>
    rw [generate_puzzle_core_fail (some p0) q0 d s s2 _ bo hg (by decide)] at h
    simp only [Prod.mk.injEq] at h
    obtain ⟨hR, hpz, hso, hs'⟩ := h
    subst hR
    subst hso
    subst hs'
    exact Or.inr ⟨by decide, hpz.symm, rfl⟩

/-- C2: every generation run that returns SUDOKU_OK produces a solution board
with all 81 cells in 1..9 that passes the validator (no repeated digit in any
row, column or 3x3 box); this holds for `sudoku_generate_solution` and for
the solution output of `sudoku_generate_puzzle`. -/
theorem C2_solutions_filled_valid :
    (∀ (b0 : Board) (s : SudokuState),
      match sudoku_generate_solution (some b0) s with
      | (SUDOKU_OK, some sol, _) => boardFilledValid sol = true
      | (SUDOKU_OK, none, _) => False
      | _ => True) ∧
    (∀ (p0 q0 : Board) (d : Int) (s : SudokuState),
      match sudoku_generate_puzzle (some p0) (some q0) d s with
      | (SUDOKU_OK, _, some sol, _) => boardFilledValid sol = true
      | (SUDOKU_OK, _, none, _) => False
      | _ => True) := by
  constructor
  · intro b0 s
    rcases hg : sudoku_generate_solution (some b0) s with ⟨res, bo, s2⟩
    cases res with
    | SUDOKU_OK =>
      cases bo with
      | none =>
        obtain ⟨b', hb'⟩ := gen_solution_board_some b0 s
        rw [hg] at hb'
        exact absurd hb' (fun hh => Option.noConfusion hh)
      | some sol =>
        obtain ⟨hval, hnz⟩ := gen_solution_ok b0 s sol s2 hg
        exact boardFilledValid_of sol hval hnz
    | SUDOKU_ERR_INVALID_ARG => exact trivial
    | SUDOKU_ERR_UNSOLVABLE => exact trivial
    | SUDOKU_ERR_IO => exact trivial
  · intro p0 q0 d s
    split
    · rename_i fst sol snd heq
      rcases gen_puzzle_inv p0 q0 d s _ _ _ _ heq with
        ⟨_, sol2, s2, hgen, hso, _, _⟩ | ⟨hne, _, _⟩
      · obtain ⟨hval, hnz⟩ := gen_solution_ok q0 (seed_if_needed s) sol2 s2 hgen
        rw [Option.some.inj hso]
        exact boardFilledValid_of sol2 hval hnz
      · exact absurd rfl hne
    · rename_i fst snd heq
      rcases gen_puzzle_inv p0 q0 d s _ _ _ _ heq with
        ⟨_, sol2, s2, hgen, hso, _, _⟩ | ⟨hne, _, _⟩
      · exact Option.noConfusion hso
      · exact absurd rfl hne
    · exact trivial

theorem subBoardOf_of (p q : Board) (h : ∀ r c : Fin 9, p r c ≠ 0 → p r c = q r c) :
    subBoardOf p q = true := by
  unfold subBoardOf
  rw [List.all_eq_true]
  intro x _
  by_cases hx : p x.1 x.2 = 0
  · simp [hx]
  · simp [hx, h x.1 x.2 hx]

/-- C3: whenever `sudoku_generate_puzzle` returns SUDOKU_OK, every non-zero
cell of the puzzle equals the solution's cell at the same position, and the
puzzle's hole count is at most `sudoku_holes_for_difficulty` of the requested
difficulty; moreover, for the removal loop at any attempt budget, if the
budget was not exhausted (fewer iterations than the budget) the hole count
equals the target exactly. -/
theorem C3_puzzle_subset_and_holes :
    (∀ (p0 q0 : Board) (d : Int) (s : SudokuState),
      match sudoku_generate_puzzle (some p0) (some q0) d s with
      | (SUDOKU_OK, some puz, some sol, _) =>
          subBoardOf puz sol = true ∧
          (count_holes puz : Int) ≤ sudoku_holes_for_difficulty d
      | (SUDOKU_OK, some _, none, _) => False
      | (SUDOKU_OK, none, _, _) => False
      | _ => True) ∧
    (∀ (target : Int) (rem : Nat) (b : Board) (s : SudokuState),
      (count_holes b : Int) ≤ target → (carve_loop target rem b s).2.2 < rem →
      (count_holes (carve_loop target rem b s).1 : Int) = target) := by
  constructor
  · intro p0 q0 d s
    split
    · rename_i puz sol snd heq
      rcases gen_puzzle_inv p0 q0 d s _ _ _ _ heq with
        ⟨_, sol2, s2, hgen, hso, hpz, _⟩ | ⟨hne, _, _⟩
      · obtain ⟨hval, hnz⟩ := gen_solution_ok q0 (seed_if_needed s) sol2 s2 hgen
        obtain rfl : sol = sol2 := Option.some.inj hso
        obtain rfl : puz = (carve_loop (sudoku_holes_for_difficulty d) 2000 sol s2).1 :=
          Option.some.inj hpz
        constructor
        · exact subBoardOf_of _ _
            (carve_loop_spec (sudoku_holes_for_difficulty d) 2000 sol s2).1
        · apply (carve_loop_spec (sudoku_holes_for_difficulty d) 2000 sol s2).2.1
          rw [count_holes_eq_zero sol hnz]
          simpa using holes_for_difficulty_nonneg d
      · exact absurd rfl hne
    · rename_i puz snd heq
      rcases gen_puzzle_inv p0 q0 d s _ _ _ _ heq with
        ⟨_, sol2, s2, _, hso, _, _⟩ | ⟨hne, _, _⟩
      · exact Option.noConfusion hso
      · exact absurd rfl hne
    · rename_i so snd heq
      rcases gen_puzzle_inv p0 q0 d s _ _ _ _ heq with
        ⟨_, sol2, s2, _, _, hpz, _⟩ | ⟨hne, _, _⟩
      · exact Option.noConfusion hpz
      · exact absurd rfl hne
    · exact trivial
  · intro target rem b s h1 h2
    have hs := carve_loop_spec target rem b s
    have hle := hs.2.1 h1
    have hge := hs.2.2.2.1 h2
    omega

/-- Witness for C3 on a concrete loop run that exits below its budget. -/
theorem C3_puzzle_subset_and_holes_witness :
    (count_holes solvedBoard : Int) ≤ 0 ∧
    (carve_loop 0 1 solvedBoard state0).2.2 < 1 ∧
    (count_holes (carve_loop 0 1 solvedBoard state0).1 : Int) = 0 :=
  ⟨by decide, by decide,
    C3_puzzle_subset_and_holes.2 0 1 solvedBoard state0 (by decide) (by decide)⟩

/-- C4: solvability (some process state makes `sudoku_solve` return OK) is an
invariant of the carving loop — a removal is kept only when the reduced copy
still solves, and is reverted otherwise — so every puzzle returned by a
successful `sudoku_generate_puzzle` is solvable by `sudoku_solve`. -/
theorem C4_carve_solvable :
    (∀ (target : Int) (rem : Nat) (b : Board) (s : SudokuState),
      Solvable b → Solvable (carve_loop target rem b s).1) ∧
    (∀ (p0 q0 : Board) (d : Int) (s : SudokuState),
      match sudoku_generate_puzzle (some p0) (some q0) d s with
      | (SUDOKU_OK, some puz, _, _) => Solvable puz
      | (SUDOKU_OK, none, _, _) => False
      | _ => True) := by
  constructor
  · intro target rem b s
    exact (carve_loop_spec target rem b s).2.2.2.2
  · intro p0 q0 d s
    split
    · rename_i puz so snd heq
      rcases gen_puzzle_inv p0 q0 d s _ _ _ _ heq with
        ⟨_, sol2, s2, hgen, _, hpz, _⟩ | ⟨hne, _, _⟩
      · obtain ⟨hval, hnz⟩ := gen_solution_ok q0 (seed_if_needed s) sol2 s2 hgen
        obtain rfl : puz = (carve_loop (sudoku_holes_for_difficulty d) 2000 sol2 s2).1 :=
          Option.some.inj hpz
        apply (carve_loop_spec (sudoku_holes_for_difficulty d) 2000 sol2 s2).2.2.2.2
        exact ⟨state0, sol2, seed_if_needed state0, solve_of_solved sol2 state0 hval hnz⟩
      · exact absurd rfl hne
    · rename_i so snd heq
      rcases gen_puzzle_inv p0 q0 d s _ _ _ _ heq with
        ⟨_, sol2, s2, _, _, hpz, _⟩ | ⟨hne, hpz, _⟩
      · exact Option.noConfusion hpz
      · exact absurd rfl hne
    · exact trivial

/-- Witness for C4 at a concrete solvable board and loop run. -/
theorem C4_carve_solvable_witness : Solvable (carve_loop 45 0 solvedBoard state0).1 :=
  C4_carve_solvable.1 45 0 solvedBoard state0
    ⟨state0, solvedBoard, seed_if_needed state0,
      solve_of_solved solvedBoard state0 (by decide) (by decide)⟩

/-- C5: `sudoku_can_place` returns false whenever row or col is outside 0..8
or value is outside 1..9, and otherwise returns true exactly when the value
does not already appear somewhere in the row, in the column, or in the 3x3
box containing the cell.  The function is pure, so the call modifies
nothing. -/
theorem C5_can_place_spec (b : Board) (row col v : Int) :
    sudoku_can_place b row col v = true ↔
      (0 ≤ row ∧ row < 9 ∧ 0 ≤ col ∧ col < 9 ∧ 1 ≤ v ∧ v ≤ 9) ∧
      (∀ i : Fin 9, b (toFin9 row) i ≠ v) ∧ (∀ i : Fin 9, b i (toFin9 col) ≠ v) ∧
      ∀ i j : Fin 9, i.val / 3 = (toFin9 row).val / 3 → j.val / 3 = (toFin9 col).val / 3 →
        b i j ≠ v := by
  constructor
  · intro h
    by_cases hr : 0 ≤ row ∧ row < 9 ∧ 0 ≤ col ∧ col < 9 ∧ 1 ≤ v ∧ v ≤ 9
    · obtain ⟨h1, h2, h3, h4, h5, h6⟩ := hr
      rw [← toFin9_val row h1 h2, ← toFin9_val col h3 h4] at h
      obtain ⟨_, hrow, hcol, hbox⟩ := (can_place_fin_iff b (toFin9 row) (toFin9 col) v).mp h
      exact ⟨⟨h1, h2, h3, h4, h5, h6⟩, hrow, hcol, hbox⟩
    · exfalso
      have hor : row < 0 ∨ 9 ≤ row ∨ col < 0 ∨ 9 ≤ col ∨ v < 1 ∨ 9 < v := by omega
      rw [can_place_out_of_range b row col v hor] at h
      exact Bool.noConfusion h
  · rintro ⟨⟨h1, h2, h3, h4, h5, h6⟩, hrow, hcol, hbox⟩
    rw [← toFin9_val row h1 h2, ← toFin9_val col h3 h4]
    exact (can_place_fin_iff b (toFin9 row) (toFin9 col) v).mpr ⟨⟨h5, h6⟩, hrow, hcol, hbox⟩

/-- Witness for C5 at a concrete placement. -/
theorem C5_can_place_spec_witness : sudoku_can_place sudoku_clear 2 3 7 = true :=
  (C5_can_place_spec sudoku_clear 2 3 7).mpr (by decide)

/-- C6: the removal loop always terminates: it executes at most as many
iterations as its attempt budget (2000 in `sudoku_generate_puzzle`), and an
iteration that picks an already-empty cell skips it while still consuming
one unit of the budget. -/
theorem C6_carve_bounded :
    (∀ (target : Int) (b : Board) (s : SudokuState),
      (carve_loop target 2000 b s).2.2 ≤ 2000) ∧
    (∀ (target : Int) (rem : Nat) (b : Board) (s : SudokuState),
      (count_holes b : Int) < target → b (carve_rr s) (carve_cc s) = 0 →
      (carve_loop target (rem + 1) b s).2.2 =
        (carve_loop target rem b (carve_s2 s)).2.2 + 1) := by
  constructor
  · intro target b s
    exact (carve_loop_spec target 2000 b s).2.2.1
  · intro target rem b s h1 h2
    rw [carve_skip target rem b s h1 h2]

/-- Witness for C6: a concrete skip iteration consuming one attempt. -/
theorem C6_carve_bounded_witness :
    (count_holes holedBoard : Int) < 45 ∧
    holedBoard (carve_rr state0) (carve_cc state0) = 0 ∧
    (carve_loop 45 (0 + 1) holedBoard state0).2.2 =
      (carve_loop 45 0 holedBoard (carve_s2 state0)).2.2 + 1 :=
  ⟨by decide, by decide, C6_carve_bounded.2 45 0 holedBoard state0 (by decide) (by decide)⟩

/-- C7: `sudoku_solve` on an already fully filled board that passes the
validator returns SUDOKU_OK and leaves every one of the 81 cells unchanged. -/
theorem C7_solve_solved_identity (b : Board) (s : SudokuState)
    (hv : sudoku_is_valid_partial b = true) (hf : ∀ r c : Fin 9, b r c ≠ 0) :
    sudoku_solve (some b) s = (SUDOKU_OK, some b, seed_if_needed s) :=
  solve_of_solved b s hv hf

/-- Witness for C7 at a concrete solved board. -/
theorem C7_solve_solved_identity_witness :
    sudoku_is_valid_partial solvedBoard = true ∧ (∀ r c : Fin 9, solvedBoard r c ≠ 0) ∧
    sudoku_solve (some solvedBoard) state0 =
      (SUDOKU_OK, some solvedBoard, seed_if_needed state0) :=
  ⟨by decide, by decide, C7_solve_solved_identity solvedBoard state0 (by decide) (by decide)⟩

theorem generate_puzzle_core_seed0 (p0 : Option Board) (qb : Board) (d : Int)
    (st : SudokuState) (h : st.g_seeded = false) :
    generate_puzzle_core p0 qb d st = generate_puzzle_core p0 qb d (sudoku_seed 0 st) := by
  unfold generate_puzzle_core
  rw [show seed_if_needed st = sudoku_seed 0 st from by unfold seed_if_needed; rw [h]; simp,
    show seed_if_needed (sudoku_seed 0 st) = sudoku_seed 0 st from by
      unfold seed_if_needed sudoku_seed
      simp]

/-- C8: generation is deterministic in the seed: seeding two process states
sharing the same pseudorandom stream family with the same value makes the
subsequent identical `sudoku_generate_puzzle` call produce identical
outputs, and a run that never called `sudoku_seed` produces the same
result, puzzle and solution as one that first called `sudoku_seed 0`. -/
theorem C8_seed_determinism :
    (∀ (st1 st2 : SudokuState) (v : Nat) (p q : Option Board) (d : Int),
      st1.srand_seq = st2.srand_seq →
      sudoku_generate_puzzle p q d (sudoku_seed v st1) =
        sudoku_generate_puzzle p q d (sudoku_seed v st2)) ∧
    (∀ (st : SudokuState) (p q : Option Board) (d : Int),
      st.g_seeded = false →
      (sudoku_generate_puzzle p q d st).1 =
        (sudoku_generate_puzzle p q d (sudoku_seed 0 st)).1 ∧
      (sudoku_generate_puzzle p q d st).2.1 =
        (sudoku_generate_puzzle p q d (sudoku_seed 0 st)).2.1 ∧
      (sudoku_generate_puzzle p q d st).2.2.1 =
        (sudoku_generate_puzzle p q d (sudoku_seed 0 st)).2.2.1) := by
  constructor
  · intro st1 st2 v p q d hseq
    have hst : sudoku_seed v st1 = sudoku_seed v st2 := by
      unfold sudoku_seed
      rw [hseq]
    rw [hst]
  · intro st p q d hseed
    cases p with
    | none => cases q <;> exact ⟨rfl, rfl, rfl⟩
    | some pb =>
      cases q with
      | none => exact ⟨rfl, rfl, rfl⟩
      | some qb =>
        rw [gen_puzzle_some_some_eq, gen_puzzle_some_some_eq,
          ← generate_puzzle_core_seed0 (some pb) qb d st hseed]
        exact ⟨rfl, rfl, rfl⟩

/-- Witness for C8 at concrete states sharing a stream family. -/
theorem C8_seed_determinism_witness :
    (sudoku_generate_puzzle none none 1 (sudoku_seed 5 state0) =
      sudoku_generate_puzzle none none 1 (sudoku_seed 5 stateB)) ∧
    (sudoku_generate_puzzle none none 1 stateB).1 =
      (sudoku_generate_puzzle none none 1 (sudoku_seed 0 stateB)).1 :=
  ⟨C8_seed_determinism.1 state0 stateB 5 none none 1 rfl,
    (C8_seed_determinism.2 stateB none none 1 rfl).1⟩

/-- C9: `sudoku_holes_for_difficulty` is a pure lookup: 35 for EASY (0), 45
for MEDIUM (1), 55 for HARD (2), and 45 for any other value. -/
theorem C9_holes_lookup :
    sudoku_holes_for_difficulty 0 = 35 ∧ sudoku_holes_for_difficulty 1 = 45 ∧
    sudoku_holes_for_difficulty 2 = 55 ∧
    ∀ d : Int, d ≠ 0 → d ≠ 1 → d ≠ 2 → sudoku_holes_for_difficulty d = 45 := by
  refine ⟨by decide, by decide, by decide, ?_⟩
  intro d h0 h1 h2
  unfold sudoku_holes_for_difficulty
  rw [if_neg h0, if_neg h1, if_neg h2]

/-- Witness for C9 at an unrecognized difficulty value. -/
theorem C9_holes_lookup_witness : sudoku_holes_for_difficulty 7 = 45 :=
  C9_holes_lookup.2.2.2 7 (by decide) (by decide) (by decide)

/-- C10: failure of `sudoku_solve` is atomic: for every non-null board, if the
result is not SUDOKU_OK (the validator rejected the board, or the search
exhausted), the board equals its value before the call — every tentative
placement was reset to 0 before exhaustion was reported, and the validity
check modifies nothing. -/
theorem C10_solve_failure_atomic (b : Board) (s : SudokuState)
    (h : (sudoku_solve (some b) s).1 ≠ SUDOKU_OK) :
    (sudoku_solve (some b) s).2.1 = some b := by
  rcases sudoku_solve_cases b s with ⟨hv, heq⟩ | ⟨hv, ok, b', g', hbt, heq⟩
  · rw [heq]
  · cases ok
    · have hb' : b' = b := solve_backtrack_restore b _ b' g' hbt
      rw [heq, hb']
    · rw [heq] at h
      exact absurd rfl h

/-- Witness for C10 at a concrete invalid board. -/
theorem C10_solve_failure_atomic_witness :
    (sudoku_solve (some badRowBoard) state0).1 ≠ SUDOKU_OK ∧
    (sudoku_solve (some badRowBoard) state0).2.1 = some badRowBoard :=
  ⟨by decide, C10_solve_failure_atomic badRowBoard state0 (by decide)⟩
